import Mathlib

/-!
Verification of the resilience and persistence substrate of the Laynes World
dashboard: the exponential-backoff retry wrapper (`retryWithBackoff`), the
durable key-value store (`LocalStorageService`), the expiring token store
(`AuthTokenStore`), the widget error-isolation boundary
(`WidgetErrorBoundary`) and the shared redaction-aware error logger
(`errorLogger.ts`).

The TypeScript sources are embedded shallowly: JavaScript exceptions become
`Except JSError`, the browser `localStorage` becomes an explicit `Storage`
state threaded through the operations, `JSON.stringify` / `JSON.parse` (host
builtins treated as a black box by the source) become explicit
encoder/decoder function parameters, and the asynchronous retry loop becomes
a function producing the trace of its observable events (operation
invocations, log calls, timed waits) together with its result.
-/

/-- Model of a JavaScript `Error` object: its `name`, `message` and optional
`stack`. All errors thrown by the embedded code are `Error` instances, so the
`error instanceof Error` test of the source is always true here. -/
structure JSError where
  name : String
  message : String
  stack : Option String := none
deriving DecidableEq

/-- Model of the browser `localStorage` backing store: a string-keyed string
map (kept as an association list) plus a capacity bound.  `setItem` raises a
`QuotaExceededError` when the written state would exceed the capacity, which
is the distinguishable "capacity exceeded" condition the spec requires of the
backing store. -/
structure Storage where
  data : List (String × String)
  quota : Nat
deriving DecidableEq

/-- `localStorage.getItem(key)`: the stored string, or `none` (JS `null`)
when the key is absent. -/
def Storage.getItem (st : Storage) (key : String) : Option String :=
  match st.data.find? (fun p => p.1 == key) with
  | some p => some p.2
  | none => none

/-- Total number of characters held by the store (keys and values), used for
the capacity check of `setItem`. -/
def Storage.size (st : Storage) : Nat :=
  (st.data.map (fun p => p.1.length + p.2.length)).foldl (· + ·) 0

/-- `localStorage.setItem(key, value)`: replaces any previous binding of
`key`; throws `QuotaExceededError` (leaving the store unchanged) when the
updated store would exceed the capacity. -/
def Storage.setItem (st : Storage) (key value : String) : Except JSError Storage :=
  let st' : Storage := ⟨(key, value) :: st.data.filter (fun p => !(p.1 == key)), st.quota⟩
  if st'.size ≤ st.quota then .ok st'
  else .error ⟨"QuotaExceededError", "The quota has been exceeded.", none⟩

/-- `localStorage.removeItem(key)`: never fails; removing an absent key is a
no-op. -/
def Storage.removeItem (st : Storage) (key : String) : Storage :=
  ⟨st.data.filter (fun p => !(p.1 == key)), st.quota⟩

/-- `localStorage.clear()`: removes every key of the backing store,
whichever component wrote it. -/
def Storage.clear (st : Storage) : Storage :=
  ⟨[], st.quota⟩

/-- Error translation performed by the `catch` block of
`LocalStorageService.save`: a `QuotaExceededError` becomes
`Storage quota exceeded while saving key: <key>` and any other failure
becomes `Failed to save to localStorage: <underlying message>`. -/
def saveCatch (key : String) (e : JSError) : JSError :=
  if e.name == "QuotaExceededError" then
    ⟨"Error", "Storage quota exceeded while saving key: " ++ key, none⟩
  else
    ⟨"Error", "Failed to save to localStorage: " ++ e.message, none⟩

/-- `LocalStorageService.save<T>(key, value)`: serializes `value` with
`JSON.stringify` (the `stringify` parameter, which may fail, e.g. on circular
structures) and writes it with `localStorage.setItem`; any exception of
either step is rethrown through `saveCatch`. -/
def save {α : Type} (stringify : α → Except JSError String) (st : Storage)
    (key : String) (value : α) : Except JSError Storage :=
  match stringify value with
  | .error e => .error (saveCatch key e)
  | .ok serialized =>
    match st.setItem key serialized with
    | .error e => .error (saveCatch key e)
    | .ok st' => .ok st'

/-- `LocalStorageService.load<T>(key)`: returns `null` (here `none`) when the
key is absent; otherwise deserializes the stored string with `JSON.parse`
(the `parse` parameter) and rethrows any parse failure as
`Failed to load from localStorage: <underlying message>`. -/
def load {α : Type} (parse : String → Except JSError α) (st : Storage)
    (key : String) : Except JSError (Option α) :=
  match st.getItem key with
  | none => .ok none
  | some serialized =>
    match parse serialized with
    | .ok v => .ok (some v)
    | .error e => .error ⟨"Error", "Failed to load from localStorage: " ++ e.message, none⟩

/-- `LocalStorageService.remove(key)`: delegates to
`localStorage.removeItem`. -/
def remove (st : Storage) (key : String) : Storage :=
  st.removeItem key

/-- `LocalStorageService.clear()`: delegates to `localStorage.clear()`,
wiping the whole backing store. -/
def clear (st : Storage) : Storage :=
  st.clear

/-- The `TokenData` record persisted by `AuthTokenStore`: the raw token and
its absolute expiry timestamp (Unix milliseconds). -/
structure TokenData where
  token : String
  expiresAt : Int
deriving DecidableEq

/-- The fixed key-namespace constant `TOKEN_PREFIX = 'auth_token_'` of
`AuthTokenStore`. -/
def tokenKeyBase : String := "auth_token_"

/-- `AuthTokenStore.getKey(service)`: the service identifier prepended with
the fixed namespace constant. -/
def getKey (service : String) : String :=
  tokenKeyBase ++ service

/-- `AuthTokenStore.isExpired(tokenData)`: `Date.now() >= expiresAt`. -/
def isExpired (now : Int) (td : TokenData) : Bool :=
  now ≥ td.expiresAt

/-- `AuthTokenStore.saveToken(service, token, expiresInSeconds)`: computes
`expiresAt = now + expiresInSeconds * 1000` and persists the record through
`LocalStorageService.save`. -/
def saveToken (stringify : TokenData → Except JSError String) (now : Int)
    (st : Storage) (service token : String) (expiresInSeconds : Int) :
    Except JSError Storage :=
  save stringify st (getKey service) ⟨token, now + expiresInSeconds * 1000⟩

/-- `AuthTokenStore.removeToken(service)`: unconditionally removes the
record. -/
def removeToken (st : Storage) (service : String) : Storage :=
  remove st (getKey service)

/-- `AuthTokenStore.getToken(service)`: loads the record; absent record gives
`null`; an expired record is eagerly deleted and `null` is returned; a valid
record gives the raw token string.  The mutated storage is returned alongside
the result; load failures propagate. -/
def getToken (parse : String → Except JSError TokenData) (now : Int)
    (st : Storage) (service : String) : Except JSError (Option String × Storage) :=
  match load parse st (getKey service) with
  | .error e => .error e
  | .ok none => .ok (none, st)
  | .ok (some td) =>
    if isExpired now td then
      .ok (none, removeToken st service)
    else
      .ok (some td.token, st)

/-- `AuthTokenStore.isTokenValid(service)`: `getToken(service) !== null`,
implemented by delegation to `getToken`, hence performing the same eager
cleanup of expired records. -/
def isTokenValid (parse : String → Except JSError TokenData) (now : Int)
    (st : Storage) (service : String) : Except JSError (Bool × Storage) :=
  match getToken parse now st service with
  | .error e => .error e
  | .ok (t, st') => .ok (t.isSome, st')

/-- Boolean test that `t` is an initial segment of `s`. -/
def startsWithB : List Char → List Char → Bool
  | _, [] => true
  | [], _ :: _ => false
  | c :: cs, d :: ds => c == d && startsWithB cs ds

/-- Boolean test that `t` occurs as a contiguous run inside `s`. -/
def containsRunB : List Char → List Char → Bool
  | [], t => startsWithB [] t
  | c :: cs, t => startsWithB (c :: cs) t || containsRunB cs t

/-- `t` is an initial segment of `s`. -/
def StartsWith (s t : List Char) : Prop := ∃ q, s = t ++ q

/-- `t` ends `s`. -/
def EndsWith (s t : List Char) : Prop := ∃ p, s = p ++ t

/-- `t` occurs as a contiguous run inside `s` (the JavaScript
`String.includes` relation on character lists). -/
def ContainsRun (s t : List Char) : Prop := ∃ p q, s = p ++ t ++ q

lemma startsWithB_iff (s t : List Char) : startsWithB s t = true ↔ StartsWith s t := by
  induction t generalizing s with
  | nil => simp [startsWithB, StartsWith]
  | cons d ds ih =>
    cases s with
    | nil =>
      simp only [startsWithB, StartsWith, List.cons_append]
      constructor
      · intro h; cases h
      · rintro ⟨q, h⟩; cases h
    | cons c cs =>
      simp only [startsWithB, StartsWith, List.cons_append, Bool.and_eq_true, beq_iff_eq]
      rw [ih cs]
      constructor
      · rintro ⟨rfl, q, rfl⟩; exact ⟨q, rfl⟩
      · rintro ⟨q, h⟩
        injection h with h1 h2
        exact ⟨h1, q, h2⟩

lemma containsRun_nil_iff (t : List Char) : ContainsRun [] t ↔ t = [] := by
  constructor
  · rintro ⟨p, q, h⟩
    rcases List.append_eq_nil.mp h.symm with ⟨h1, h2⟩
    rcases List.append_eq_nil.mp h1 with ⟨-, h3⟩
    exact h3
  · rintro rfl; exact ⟨[], [], rfl⟩

lemma containsRun_cons_iff (c : Char) (cs t : List Char) :
    ContainsRun (c :: cs) t ↔ StartsWith (c :: cs) t ∨ ContainsRun cs t := by
  constructor
  · rintro ⟨p, q, h⟩
    cases p with
    | nil => exact Or.inl ⟨q, by simpa using h⟩
    | cons x p' =>
      rw [List.cons_append] at h
      injection h with h1 h2
      exact Or.inr ⟨p', q, h2⟩
  · rintro (⟨q, h⟩ | ⟨p, q, h⟩)
    · exact ⟨[], q, by simpa using h⟩
    · exact ⟨c :: p, q, by simp [h]⟩

lemma containsRunB_iff (s t : List Char) : containsRunB s t = true ↔ ContainsRun s t := by
  induction s with
  | nil =>
    rw [containsRun_nil_iff, containsRunB, startsWithB_iff]
    constructor
    · rintro ⟨q, h⟩
      rcases List.append_eq_nil.mp h.symm with ⟨h1, -⟩
      exact h1
    · rintro rfl; exact ⟨[], rfl⟩
  | cons c cs ih =>
    rw [containsRunB, containsRun_cons_iff, Bool.or_eq_true, startsWithB_iff, ih]

instance (s t : List Char) : Decidable (StartsWith s t) :=
  decidable_of_iff _ (startsWithB_iff s t)

instance (s t : List Char) : Decidable (ContainsRun s t) :=
  decidable_of_iff _ (containsRunB_iff s t)

lemma find?_filter_neg (l : List (String × String)) (k : String) :
    (l.filter (fun p => !(p.1 == k))).find? (fun p => p.1 == k) = none := by
  induction l with
  | nil => rfl
  | cons p l ih =>
    by_cases h : p.1 = k
    · simp [List.filter, h, ih]
    · have hb : (p.1 == k) = false := beq_eq_false_iff_ne.mpr h
      simp [List.filter, hb, List.find?, ih]

lemma getItem_setItem_self (st st' : Storage) (k v : String)
    (h : st.setItem k v = .ok st') : st'.getItem k = some v := by
  simp only [Storage.setItem] at h
  split at h
  · injection h with h'
    subst h'
    simp [Storage.getItem, List.find?]
  · cases h

lemma getItem_removeItem_self (st : Storage) (k : String) :
    (st.removeItem k).getItem k = none := by
  unfold Storage.removeItem Storage.getItem
  rw [find?_filter_neg]

/-- C3 (Store round-trip): for every key `k` (the empty string included) and
every serializable value `v` — one whose serialized form parses back to `v`,
which is the "modulo the format's own fidelity limits" proviso — a successful
`save(k, v)` followed by `load(k)` with no intervening write returns exactly
`v`. -/
theorem C3_store_round_trip {α : Type} (stringify : α → Except JSError String)
    (parse : String → Except JSError α) (st st' : Storage) (k : String) (v : α)
    (s : String) (hser : stringify v = .ok s) (hrt : parse s = .ok v)
    (hsave : save stringify st k v = .ok st') :
    load parse st' k = .ok (some v) := by
  cases hset : st.setItem k s with
  | error e =>
    simp only [save, hser, hset] at hsave
    cases hsave
  | ok st'' =>
    simp only [save, hser, hset] at hsave
    injection hsave with h
    subst h
    simp only [load, getItem_setItem_self st st'' k s hset, hrt]

/-- Witness decoder that fails on every input, as `JSON.parse` does on
corrupted bytes. -/
def parseNever {α : Type} : String → Except JSError α :=
  fun _ => .error ⟨"SyntaxError", "Unexpected token", none⟩

/-- Witness encoder/decoder pair for `Bool` values. -/
def stringifyBool : Bool → Except JSError String :=
  fun b => .ok (if b then "true" else "false")

/-- Witness decoder matching `stringifyBool`. -/
def parseBool : String → Except JSError Bool :=
  fun s => if s = "true" then .ok true else if s = "false" then .ok false
    else .error ⟨"SyntaxError", "Unexpected token", none⟩

theorem C3_store_round_trip_witness :
    load parseBool ⟨[("", "true")], 100⟩ "" = .ok (some true) :=
  C3_store_round_trip stringifyBool parseBool ⟨[], 100⟩ ⟨[("", "true")], 100⟩
    "" true "true" rfl rfl rfl

/-- C4 (Absent vs corrupted): `load` on an absent key returns `null` and does
not fail, while `load` on a key holding bytes the decoder cannot parse fails
with the `Failed to load from localStorage` error and never returns `null`. -/
theorem C4_absent_vs_corrupted {α : Type} (parse : String → Except JSError α)
    (st : Storage) (k : String) :
    (st.getItem k = none → load parse st k = .ok none) ∧
    (∀ s e, st.getItem k = some s → parse s = .error e →
      load parse st k =
        .error ⟨"Error", "Failed to load from localStorage: " ++ e.message, none⟩) := by
  constructor
  · intro h
    simp only [load, h]
  · intro s e h hp
    simp only [load, h, hp]

theorem C4_absent_vs_corrupted_witness :
    load (parseNever (α := Bool)) ⟨[("bad", "oops")], 100⟩ "missing" = .ok none ∧
    load (parseNever (α := Bool)) ⟨[("bad", "oops")], 100⟩ "bad" =
      .error ⟨"Error", "Failed to load from localStorage: Unexpected token", none⟩ := by
  constructor
  · exact (C4_absent_vs_corrupted (parseNever (α := Bool)) ⟨[("bad", "oops")], 100⟩
      "missing").1 (by decide)
  · exact (C4_absent_vs_corrupted (parseNever (α := Bool)) ⟨[("bad", "oops")], 100⟩
      "bad").2 "oops" ⟨"SyntaxError", "Unexpected token", none⟩ (by decide) rfl

/-- C5 (Token expiry eviction): when a stored token record is expired
(`now >= expiresAt`), `getToken` deletes the record and returns `null`, a
subsequent `getToken` on the resulting store still returns `null` without
error, and `isTokenValid` — delegating to `getToken` — returns `false` with
the same eager deletion; when the record is absent, `getToken` returns `null`
without error. -/
theorem C5_token_expiry_eviction (parse : String → Except JSError TokenData)
    (now : Int) (st : Storage) (s : String) :
    (∀ enc td, st.getItem (getKey s) = some enc → parse enc = .ok td →
      now ≥ td.expiresAt →
      getToken parse now st s = .ok (none, removeToken st s) ∧
      (removeToken st s).getItem (getKey s) = none ∧
      getToken parse now (removeToken st s) s = .ok (none, removeToken st s) ∧
      isTokenValid parse now st s = .ok (false, removeToken st s)) ∧
    (st.getItem (getKey s) = none → getToken parse now st s = .ok (none, st)) := by
  constructor
  · intro enc td henc htd hexp
    have hexpired : isExpired now td = true := by
      unfold isExpired
      exact decide_eq_true hexp
    have hget : getToken parse now st s = .ok (none, removeToken st s) := by
      simp only [getToken, load, henc, htd, hexpired, if_true]
    have hgone : (removeToken st s).getItem (getKey s) = none :=
      getItem_removeItem_self st (getKey s)
    refine ⟨hget, hgone, ?_, ?_⟩
    · simp only [getToken, load, hgone]
    · simp only [isTokenValid, hget, Option.isSome_none]
  · intro h
    simp only [getToken, load, h]

/-- Witness decoder for a single concrete token record. -/
def parseTokenC5 : String → Except JSError TokenData :=
  fun s =>
    if s = "rec0" then .ok ⟨"tok123", 500⟩
    else .error ⟨"SyntaxError", "Unexpected token", none⟩

theorem C5_token_expiry_eviction_witness :
    getToken parseTokenC5 1000 ⟨[("auth_token_google", "rec0")], 100⟩ "google" =
      .ok (none, removeToken ⟨[("auth_token_google", "rec0")], 100⟩ "google") ∧
    isTokenValid parseTokenC5 1000 ⟨[("auth_token_google", "rec0")], 100⟩ "google" =
      .ok (false, removeToken ⟨[("auth_token_google", "rec0")], 100⟩ "google") := by
  have h := (C5_token_expiry_eviction parseTokenC5 1000
    ⟨[("auth_token_google", "rec0")], 100⟩ "google").1 "rec0"
    ⟨"tok123", 500⟩ (by decide) rfl (by decide)
  exact ⟨h.1, h.2.2.2⟩

/-- Encoder failing the way `JSON.stringify` fails on a circular structure:
a `TypeError` whose message does not mention the storage key. -/
def stringifyCircular : Unit → Except JSError String :=
  fun _ => .error ⟨"TypeError", "Converting circular structure to JSON", none⟩

/-- Counterexample to C6 as stated: for key `k1`, a non-quota encode failure
makes `save` fail with `Failed to save to localStorage: <underlying message>`,
a message that does not contain the offending key `k1` — so the non-quota
failure kind does not identify the key. -/
theorem C6_counterexample :
    save stringifyCircular ⟨[], 1000⟩ "k1" () =
      .error ⟨"Error",
        "Failed to save to localStorage: Converting circular structure to JSON", none⟩ ∧
    containsRunB "Failed to save to localStorage: Converting circular structure to JSON".data
      "k1".data = false :=
  ⟨rfl, rfl⟩

/-- C6 as amended: a capacity rejection of the underlying store makes `save`
fail with `Storage quota exceeded while saving key: <key>`, a message that
does contain the offending key; any other write/encode failure makes `save`
fail with `Failed to save to localStorage: <underlying message>`, which does
not necessarily identify the key. -/
theorem C6_save_failure_kinds {α : Type} (stringify : α → Except JSError String)
    (st : Storage) (k : String) (v : α) :
    (∀ s e, stringify v = .ok s → st.setItem k s = .error e →
      e.name = "QuotaExceededError" →
      save stringify st k v =
        .error ⟨"Error", "Storage quota exceeded while saving key: " ++ k, none⟩ ∧
      ContainsRun ("Storage quota exceeded while saving key: " ++ k).data k.data) ∧
    (∀ e, stringify v = .error e → e.name ≠ "QuotaExceededError" →
      save stringify st k v =
        .error ⟨"Error", "Failed to save to localStorage: " ++ e.message, none⟩) := by
  constructor
  · intro s e hser hset hname
    constructor
    · simp only [save, hser, hset, saveCatch, hname, beq_self_eq_true, if_true]
    · refine ⟨"Storage quota exceeded while saving key: ".data, [], ?_⟩
      simp [String.data_append]
  · intro e hser hname
    have hb : (e.name == "QuotaExceededError") = false := beq_eq_false_iff_ne.mpr hname
    simp only [save, hser, saveCatch, hb, Bool.false_eq_true, if_false]

/-- Witness encoder for the quota branch. -/
def stringifyConstV : Unit → Except JSError String := fun _ => .ok "v"

theorem C6_save_failure_kinds_witness :
    save stringifyConstV ⟨[], 0⟩ "mykey" () =
      .error ⟨"Error", "Storage quota exceeded while saving key: mykey", none⟩ ∧
    save stringifyCircular ⟨[], 0⟩ "mykey" () =
      .error ⟨"Error",
        "Failed to save to localStorage: Converting circular structure to JSON", none⟩ := by
  constructor
  · exact ((C6_save_failure_kinds stringifyConstV ⟨[], 0⟩ "mykey" ()).1 "v"
      ⟨"QuotaExceededError", "The quota has been exceeded.", none⟩ rfl rfl rfl).1
  · exact (C6_save_failure_kinds stringifyCircular ⟨[], 0⟩ "mykey" ()).2
      ⟨"TypeError", "Converting circular structure to JSON", none⟩ rfl (by decide)

/-- C10 (clear wipes the entire backing store): `LocalStorageService.clear`
delegates to the backing store's global clear, so afterwards every key is
absent — including token-store records — and `getToken` returns `null`
without error for every service. -/
theorem C10_clear_wipes_store (st : Storage) (k : String)
    (parse : String → Except JSError TokenData) (now : Int) (s : String) :
    (clear st).getItem k = none ∧
    getToken parse now (clear st) s = .ok (none, clear st) := by
  have h : ∀ k', (clear st).getItem k' = none := by
    intro k'
    rfl
  exact ⟨h k, by simp only [getToken, load, h (getKey s)]⟩

/-- Model of a loosely-typed JavaScript value, used for the context maps
handed to the loggers. -/
inductive JSVal where
  | null
  | bool (b : Bool)
  | num (n : Nat)
  | str (s : String)
  | err (e : JSError)
  | arr (elems : List JSVal)
  | obj (fields : List (String × JSVal))

/-- Observable events of one `retryWithBackoff` invocation: an invocation of
the wrapped operation, a report through the module-local `logError` of
`retryWithBackoff.ts` (which is `console.error` with a `[RetryWithBackoff]`
tag), a report through the shared error logger of `errorLogger.ts` (never
emitted by this module — its local `logError` shadows nothing and writes only
to the console), and a timed wait. -/
inductive RetryEvent where
  | call (attempt : Nat)
  | consoleLog (message : String) (context : List (String × JSVal))
  | sharedLog (message : String) (context : List (String × JSVal))
  | sleep (ms : Nat)

/-- The retry loop of `retryWithBackoff`, embedded with the loop counter
split into the current `attempt` index and the number `remaining` of attempts
still allowed after it; the source's `for (attempt = 0; attempt <= maxRetries)`
with its `attempt === maxRetries` terminal test corresponds to starting at
`attempt = 0, remaining = maxRetries` and testing `remaining = 0`.
Returns the event trace together with the settled result. -/
def retryAux {α : Type} (op : Nat → Except JSError α) (maxRetries baseDelay : Nat) :
    Nat → Nat → List RetryEvent × Except JSError α
  | attempt, remaining =>
    match op attempt with
    | .ok v => ([.call attempt], .ok v)
    | .error e =>
      match remaining with
      | 0 =>
        ([.call attempt,
          .consoleLog "[RetryWithBackoff] Max retries exceeded"
            [("attempt", .num attempt), ("maxRetries", .num maxRetries),
             ("error", .err e)]],
         .error e)
      | r + 1 =>
        let delay := baseDelay * 2 ^ attempt
        let rest := retryAux op maxRetries baseDelay (attempt + 1) r
        (.call attempt ::
         .consoleLog "[RetryWithBackoff] Request failed, retrying..."
           [("attempt", .num (attempt + 1)), ("maxRetries", .num maxRetries),
            ("nextRetryIn", .str (toString delay ++ "ms")),
            ("error", .str e.message)] ::
         .sleep delay :: rest.1,
         rest.2)

/-- `retryWithBackoff(request, maxRetries, baseDelay)`: attempt 0 runs
immediately; each failed attempt below the bound logs and waits
`baseDelay * 2^attempt` before the next attempt; the terminal failure is
rethrown unwrapped (the dead `throw new Error('Max retries exceeded')` after
the source's loop is unreachable and has no counterpart here). -/
def retryWithBackoff {α : Type} (op : Nat → Except JSError α)
    (maxRetries baseDelay : Nat) : List RetryEvent × Except JSError α :=
  retryAux op maxRetries baseDelay 0 maxRetries

/-- Number of operation invocations recorded in a trace. -/
def countCalls : List RetryEvent → Nat
  | [] => 0
  | .call _ :: es => countCalls es + 1
  | _ :: es => countCalls es

/-- Number of module-local console-logger reports recorded in a trace. -/
def countConsoleLogs : List RetryEvent → Nat
  | [] => 0
  | .consoleLog _ _ :: es => countConsoleLogs es + 1
  | _ :: es => countConsoleLogs es

/-- Number of shared-error-logger reports recorded in a trace. -/
def countSharedLogs : List RetryEvent → Nat
  | [] => 0
  | .sharedLog _ _ :: es => countSharedLogs es + 1
  | _ :: es => countSharedLogs es

lemma retryAux_ok {α : Type} (op : Nat → Except JSError α) (M b a r : Nat)
    (v : α) (h : op a = .ok v) : retryAux op M b a r = ([.call a], .ok v) := by
  rw [retryAux.eq_def]
  dsimp only
  rw [h]

lemma retryAux_error_zero {α : Type} (op : Nat → Except JSError α) (M b a : Nat)
    (e : JSError) (h : op a = .error e) :
    retryAux op M b a 0 =
      ([.call a,
        .consoleLog "[RetryWithBackoff] Max retries exceeded"
          [("attempt", .num a), ("maxRetries", .num M), ("error", .err e)]],
       .error e) := by
  rw [retryAux.eq_def]
  dsimp only
  rw [h]

lemma retryAux_error_succ {α : Type} (op : Nat → Except JSError α) (M b a r : Nat)
    (e : JSError) (h : op a = .error e) :
    retryAux op M b a (r + 1) =
      (.call a ::
       .consoleLog "[RetryWithBackoff] Request failed, retrying..."
         [("attempt", .num (a + 1)), ("maxRetries", .num M),
          ("nextRetryIn", .str (toString (b * 2 ^ a) ++ "ms")),
          ("error", .str e.message)] ::
       .sleep (b * 2 ^ a) :: (retryAux op M b (a + 1) r).1,
       (retryAux op M b (a + 1) r).2) := by
  rw [retryAux.eq_def]
  dsimp only
  rw [h]

lemma retryAux_all_fail {α : Type} (op : Nat → Except JSError α)
    (err : Nat → JSError) (M b : Nat) (hfail : ∀ n, op n = .error (err n)) :
    ∀ r a, countCalls (retryAux op M b a r).1 = r + 1 ∧
      (retryAux op M b a r).2 = .error (err (a + r)) := by
  intro r
  induction r with
  | zero =>
    intro a
    rw [retryAux_error_zero op M b a (err a) (hfail a)]
    simp [countCalls]
  | succ r ih =>
    intro a
    have h := ih (a + 1)
    rw [retryAux_error_succ op M b a r (err a) (hfail a)]
    constructor
    · simp only [countCalls, h.1]
    · have he : a + 1 + r = a + (r + 1) := by omega
      rw [h.2, he]

lemma retryAux_shared_silent {α : Type} (op : Nat → Except JSError α)
    (M b : Nat) : ∀ r a, countSharedLogs (retryAux op M b a r).1 = 0 := by
  intro r
  induction r with
  | zero =>
    intro a
    cases h : op a with
    | ok v => rw [retryAux_ok op M b a 0 v h]; rfl
    | error e => rw [retryAux_error_zero op M b a e h]; rfl
  | succ r ih =>
    intro a
    cases h : op a with
    | ok v => rw [retryAux_ok op M b a (r + 1) v h]; rfl
    | error e =>
      rw [retryAux_error_succ op M b a r e h]
      simp only [countSharedLogs, ih (a + 1)]

/-- C1 (Retry exhaustion): an operation failing on every attempt is invoked
exactly `maxRetries + 1` times, and `retryWithBackoff` rejects with the error
of the last attempt itself, unwrapped. -/
theorem C1_retry_exhaustion {α : Type} (op : Nat → Except JSError α)
    (err : Nat → JSError) (maxRetries baseDelay : Nat)
    (hfail : ∀ n, op n = .error (err n)) :
    countCalls (retryWithBackoff op maxRetries baseDelay).1 = maxRetries + 1 ∧
    (retryWithBackoff op maxRetries baseDelay).2 = .error (err maxRetries) := by
  have h := retryAux_all_fail op err maxRetries baseDelay hfail maxRetries 0
  simpa [retryWithBackoff] using h

/-- Concrete always-failing error for witnesses. -/
def eBoom : JSError := ⟨"Error", "network down", none⟩

theorem C1_retry_exhaustion_witness :
    countCalls (retryWithBackoff (fun _ : Nat => (Except.error eBoom : Except JSError Nat))
      2 100).1 = 2 + 1 ∧
    (retryWithBackoff (fun _ : Nat => (Except.error eBoom : Except JSError Nat))
      2 100).2 = .error eBoom :=
  C1_retry_exhaustion (fun _ => Except.error eBoom) (fun _ => eBoom) 2 100 (fun _ => rfl)

/-- The three observable events of one failed non-terminal attempt `n` of
`retryWithBackoff`: the operation invocation, the console report — carrying
`attempt: n + 1`, `maxRetries`, and the computed next delay
`baseDelay * 2^n` — and the backoff wait itself. -/
def failBlock (maxRetries baseDelay n : Nat) (e : JSError) : List RetryEvent :=
  [.call n,
   .consoleLog "[RetryWithBackoff] Request failed, retrying..."
     [("attempt", .num (n + 1)), ("maxRetries", .num maxRetries),
      ("nextRetryIn", .str (toString (baseDelay * 2 ^ n) ++ "ms")),
      ("error", .str e.message)],
   .sleep (baseDelay * 2 ^ n)]

lemma retryAux_succeeds {α : Type} (op : Nat → Except JSError α)
    (err : Nat → JSError) (M b : Nat) (v : α) :
    ∀ k a r, k ≤ r →
      (∀ i, i < k → op (a + i) = .error (err (a + i))) →
      op (a + k) = .ok v →
      retryAux op M b a r =
        (((List.range k).map (fun n => failBlock M b (a + n) (err (a + n)))).flatten
          ++ [RetryEvent.call (a + k)], .ok v) := by
  intro k
  induction k with
  | zero =>
    intro a r hk hfail hok
    rw [retryAux_ok op M b a r v (by simpa using hok)]
    simp
  | succ k ih =>
    intro a r hk hfail hok
    obtain ⟨r', rfl⟩ : ∃ r', r = r' + 1 := ⟨r - 1, by omega⟩
    have h0 : op a = .error (err a) := by simpa using hfail 0 (by omega)
    rw [retryAux_error_succ op M b a r' (err a) h0]
    have ih' := ih (a + 1) r' (by omega)
      (fun i hi => by
        have h := hfail (i + 1) (by omega)
        have he : a + (i + 1) = a + 1 + i := by omega
        rw [he] at h
        exact h)
      (by
        have he : a + (k + 1) = a + 1 + k := by omega
        rw [he] at hok
        exact hok)
    rw [ih']
    have hmap : (List.range k).map ((fun n => failBlock M b (a + n) (err (a + n))) ∘ Nat.succ)
        = (List.range k).map (fun n => failBlock M b (a + 1 + n) (err (a + 1 + n))) := by
      refine List.map_congr_left ?_
      intro n _
      have he : a + Nat.succ n = a + 1 + n := by omega
      simp only [Function.comp, he]
    have hterm : a + (k + 1) = a + 1 + k := by omega
    rw [List.range_succ_eq_map, List.map_cons, List.flatten_cons, List.map_map, hmap, hterm]
    simp [failBlock]

/-- C2 (Retry schedule): when the first `k` attempts fail and attempt `k`
(with `k ≤ maxRetries`) succeeds, the complete event trace is: attempt 0
invoked first with no preceding wait; each failed attempt `n < k` followed by
exactly one wait of `baseDelay * 2^n` before attempt `n + 1`; and the trace
ends at the succeeding invocation — no further attempts, waits or logs — with
the result of that attempt. -/
theorem C2_retry_schedule {α : Type} (op : Nat → Except JSError α)
    (err : Nat → JSError) (maxRetries baseDelay k : Nat) (v : α)
    (hk : k ≤ maxRetries)
    (hfail : ∀ i, i < k → op i = .error (err i))
    (hok : op k = .ok v) :
    retryWithBackoff op maxRetries baseDelay =
      (((List.range k).map (fun n => failBlock maxRetries baseDelay n (err n))).flatten
        ++ [RetryEvent.call k], .ok v) := by
  have h := retryAux_succeeds op err maxRetries baseDelay v k 0 maxRetries hk
    (fun i hi => by simpa using hfail i hi) (by simpa using hok)
  simpa [retryWithBackoff] using h

/-- Witness operation failing on attempts 0 and 1 and succeeding on 2. -/
def opC2 : Nat → Except JSError Nat :=
  fun n => if n < 2 then .error eBoom else .ok 7

theorem C2_retry_schedule_witness :
    retryWithBackoff opC2 3 100 =
      (((List.range 2).map (fun n => failBlock 3 100 n eBoom)).flatten
        ++ [RetryEvent.call 2], .ok 7) :=
  C2_retry_schedule opC2 (fun _ => eBoom) 3 100 2 7 (by omega)
    (fun i hi => by simp only [opC2, if_pos hi]) rfl

lemma retryAux_all_fail_trace {α : Type} (op : Nat → Except JSError α)
    (err : Nat → JSError) (M b : Nat) (hfail : ∀ n, op n = .error (err n)) :
    ∀ r a, (retryAux op M b a r).1 =
      ((List.range r).map (fun n => failBlock M b (a + n) (err (a + n)))).flatten
        ++ [RetryEvent.call (a + r),
            RetryEvent.consoleLog "[RetryWithBackoff] Max retries exceeded"
              [("attempt", .num (a + r)), ("maxRetries", .num M),
               ("error", .err (err (a + r)))]] := by
  intro r
  induction r with
  | zero =>
    intro a
    rw [retryAux_error_zero op M b a (err a) (hfail a)]
    simp
  | succ r ih =>
    intro a
    rw [retryAux_error_succ op M b a r (err a) (hfail a)]
    have ih' := ih (a + 1)
    have hmap : (List.range r).map ((fun n => failBlock M b (a + n) (err (a + n))) ∘ Nat.succ)
        = (List.range r).map (fun n => failBlock M b (a + 1 + n) (err (a + 1 + n))) := by
      refine List.map_congr_left ?_
      intro n _
      have he : a + Nat.succ n = a + 1 + n := by omega
      simp only [Function.comp, he]
    have hterm : a + (r + 1) = a + 1 + r := by omega
    rw [List.range_succ_eq_map, List.map_cons, List.flatten_cons, List.map_map, hmap, hterm]
    simp [ih', failBlock]

lemma retryAux_all_fail_console {α : Type} (op : Nat → Except JSError α)
    (err : Nat → JSError) (M b : Nat) (hfail : ∀ n, op n = .error (err n)) :
    ∀ r a, countConsoleLogs (retryAux op M b a r).1 = r + 1 := by
  intro r
  induction r with
  | zero =>
    intro a
    rw [retryAux_error_zero op M b a (err a) (hfail a)]
    rfl
  | succ r ih =>
    intro a
    rw [retryAux_error_succ op M b a r (err a) (hfail a)]
    simp only [countConsoleLogs, ih (a + 1)]

/-- Counterexample to C9 as stated: with `maxRetries = 1` and an operation
failing on both attempts, the run makes two failed attempts but zero reports
to the shared error logger of `errorLogger.ts` — the module-local `logError`
of `retryWithBackoff.ts` writes to the console only, and its entries are
never retained in the shared bounded buffer. -/
theorem C9_counterexample :
    countSharedLogs (retryWithBackoff
      (fun _ : Nat => (Except.error eBoom : Except JSError Nat)) 1 100).1 = 0 ∧
    countCalls (retryWithBackoff
      (fun _ : Nat => (Except.error eBoom : Except JSError Nat)) 1 100).1 = 2 :=
  ⟨rfl, rfl⟩

/-- C9 as amended: every failed attempt — the terminal one included —
produces exactly one report through the module-local console logger of
`retryWithBackoff.ts` (so `maxRetries + 1` console reports in total on
exhaustion, each non-terminal one carrying the 1-based attempt index and the
computed next delay, the terminal one carrying the final attempt index), and
no report at all reaches the shared error logger of `errorLogger.ts`. -/
theorem C9_retry_failure_reports {α : Type} (op : Nat → Except JSError α)
    (err : Nat → JSError) (maxRetries baseDelay : Nat)
    (hfail : ∀ n, op n = .error (err n)) :
    (retryWithBackoff op maxRetries baseDelay).1 =
      ((List.range maxRetries).map
          (fun n => failBlock maxRetries baseDelay n (err n))).flatten
        ++ [RetryEvent.call maxRetries,
            RetryEvent.consoleLog "[RetryWithBackoff] Max retries exceeded"
              [("attempt", .num maxRetries), ("maxRetries", .num maxRetries),
               ("error", .err (err maxRetries))]] ∧
    countConsoleLogs (retryWithBackoff op maxRetries baseDelay).1 = maxRetries + 1 ∧
    countSharedLogs (retryWithBackoff op maxRetries baseDelay).1 = 0 := by
  refine ⟨?_, ?_, retryAux_shared_silent op maxRetries baseDelay maxRetries 0⟩
  · have h := retryAux_all_fail_trace op err maxRetries baseDelay hfail maxRetries 0
    simpa [retryWithBackoff] using h
  · exact retryAux_all_fail_console op err maxRetries baseDelay hfail maxRetries 0

theorem C9_retry_failure_reports_witness :
    countConsoleLogs (retryWithBackoff
      (fun _ : Nat => (Except.error eBoom : Except JSError Nat)) 1 100).1 = 1 + 1 ∧
    countSharedLogs (retryWithBackoff
      (fun _ : Nat => (Except.error eBoom : Except JSError Nat)) 1 100).1 = 0 := by
  have h := C9_retry_failure_reports
    (fun _ : Nat => (Except.error eBoom : Except JSError Nat)) (fun _ => eBoom)
    1 100 (fun _ => rfl)
  exact ⟨h.2.1, h.2.2⟩

/-- JS `\s` whitespace class (its common members). -/
def isWSChar (c : Char) : Bool :=
  c == ' ' || c == '\t' || c == '\n' || c == '\r' || c == '\x0b' || c == '\x0c'

/-- The `[^\s&]` value class of the sensitive-value regexes. -/
def isValChar (c : Char) : Bool :=
  !(isWSChar c) && c != '&'

/-- The `[:\s=]` separator class of the sensitive-value regexes. -/
def isSepChar (c : Char) : Bool :=
  c == ':' || c == '=' || isWSChar c

/-- JS regex word class `\w`, used by `\b` boundaries. -/
def isWordChar (c : Char) : Bool :=
  c.isAlpha || c.isDigit || c == '_'

/-- Whether the character preceding the match position (if any) is a word
character; the start of the string counts as non-word. -/
def prevIsWord : Option Char → Bool
  | none => false
  | some c => isWordChar c

/-- Case-insensitive character comparison, as the regexes' `i` flag. -/
def lowerEq (c d : Char) : Bool :=
  c.toLower == d.toLower

/-- State of a pattern matcher: characters consumed so far and the rest of
the input. -/
abbrev PState := Nat × List Char

/-- Match a literal case-insensitively. -/
def pLitCI : List Char → PState → Option PState
  | [], st => some st
  | _ :: _, (_, []) => none
  | p :: ps, (n, c :: cs) => if lowerEq c p then pLitCI ps (n + 1, cs) else none

/-- Optionally match one character case-insensitively (`[s]?`). -/
def pOptCI (c : Char) : PState → Option PState
  | (n, d :: r) => if lowerEq d c then some (n + 1, r) else some (n, d :: r)
  | st => some st

/-- Optionally match one character of a class (`[_-]?`). -/
def pOptIn (cs : List Char) : PState → Option PState
  | (n, d :: r) => if cs.contains d then some (n + 1, r) else some (n, d :: r)
  | st => some st

/-- Greedily match one or more characters of a class (`X+`). -/
def pPlus (p : Char → Bool) : PState → Option PState
  | (n, s) =>
    let t := s.takeWhile p
    if t.length = 0 then none else some (n + t.length, s.drop t.length)

/-- A matcher receives the character preceding the position (for `\b`) and
the rest of the string, and returns the length of the leftmost-greedy match
starting there, if any. -/
abbrev Matcher := Option Char → List Char → Option Nat

/-- Matcher for `/lit[s]?[:\s=]+[^\s&]+/gi`-shaped patterns (`token`,
`password`, `secret`) and, with `optS = false`, for `/authorization.../gi`.
The `[s]?` needs no backtracking: when the optional `s` is taken and the
separator class then fails, the variant without `s` fails as well, since `s`
is not a separator. -/
def keyValMatcher (lit : String) (optS : Bool) : Matcher :=
  fun _ s => do
    let st1 ← pLitCI lit.data (0, s)
    let st2 ← if optS then pOptCI 's' st1 else pure st1
    let st3 ← pPlus isSepChar st2
    let st4 ← pPlus isValChar st3
    pure st4.1

/-- Matcher for `/lit1[_-]?lit2[s]?[:\s=]+[^\s&]+/gi`-shaped patterns
(`api[_-]?key[s]?`, `access[_-]?token`, `refresh[_-]?token`,
`client[_-]?secret`); the optional parts need no backtracking for the same
reason as in `keyValMatcher`. -/
def compoundMatcher (lit1 lit2 : String) (optS : Bool) : Matcher :=
  fun _ s => do
    let st1 ← pLitCI lit1.data (0, s)
    let st2 ← pOptIn ['_', '-'] st1
    let st3 ← pLitCI lit2.data st2
    let st4 ← if optS then pOptCI 's' st3 else pure st3
    let st5 ← pPlus isSepChar st4
    let st6 ← pPlus isValChar st5
    pure st6.1

/-- Matcher for `/bearer\s+[^\s&]+/gi`. -/
def bearerMatcher : Matcher :=
  fun _ s => do
    let st1 ← pLitCI "bearer".data (0, s)
    let st2 ← pPlus isWSChar st1
    let st3 ← pPlus isValChar st2
    pure st3.1

/-- The `[A-Za-z0-9._%+-]` local-part class of the e-mail regex. -/
def isLocalChar (c : Char) : Bool :=
  c.isAlpha || c.isDigit || c == '.' || c == '_' || c == '%' || c == '+' || c == '-'

/-- The `[A-Za-z0-9.-]` domain class of the e-mail regex. -/
def isDomChar (c : Char) : Bool :=
  c.isAlpha || c.isDigit || c == '.' || c == '-'

/-- The `[A-Z|a-z]` class of the e-mail regex — the source's character class
literally includes `|`. -/
def isTldChar (c : Char) : Bool :=
  c.isAlpha || c == '|'

/-- JS `\b` between the previous character and the first matched one. -/
def wordEdge (prev : Option Char) (first : Char) : Bool :=
  prevIsWord prev != isWordChar first

/-- JS `\b` between the last matched character and the following input. -/
def wordEdgeAfter (last : Char) (rest : List Char) : Bool :=
  match rest with
  | [] => isWordChar last
  | c :: _ => isWordChar last != isWordChar c

/-- Greedy-with-backtracking `[A-Z|a-z]{2,}\b` tail of the e-mail regex. -/
def emailTld (rest2 : List Char) : Option Nat :=
  let run := rest2.takeWhile isTldChar
  (List.range run.length).findSome? (fun i =>
    let t := run.length - i
    if t < 2 then none
    else if wordEdgeAfter (rest2.getD (t - 1) ' ') (rest2.drop t) then some t
    else none)

/-- Greedy-with-backtracking `[A-Za-z0-9.-]+\.` + TLD part of the e-mail
regex (domain lengths tried from longest to shortest, as the regex engine
backtracks). -/
def emailDom (rest : List Char) : Option Nat :=
  let run := rest.takeWhile isDomChar
  (List.range run.length).findSome? (fun i =>
    let j := run.length - i
    if j = 0 then none
    else match rest.drop j with
      | '.' :: rest2 => (emailTld rest2).map (fun t => j + 1 + t)
      | _ => none)

/-- Matcher for `/\b[A-Za-z0-9._%+-]+@[A-Za-z0-9.-]+\.[A-Z|a-z]{2,}\b/g`.
The local part needs no backtracking: it must be followed by `@`, which is
not a local-part character. -/
def emailMatcher : Matcher :=
  fun prev s =>
    let loc := s.takeWhile isLocalChar
    if loc.length = 0 then none
    else if !(wordEdge prev (s.getD 0 ' ')) then none
    else match s.drop loc.length with
      | '@' :: rest => (emailDom rest).map (fun d => loc.length + 1 + d)
      | _ => none

/-- Matcher for the SSN pattern `/\b\d{3}-\d{2}-\d{4}\b/g`. -/
def ssnMatcher : Matcher :=
  fun prev s =>
    if prevIsWord prev then none
    else match s with
      | a :: b :: c :: '-' :: d :: e :: '-' :: f :: g :: h :: i :: rest =>
        if a.isDigit && b.isDigit && c.isDigit && d.isDigit && e.isDigit &&
            f.isDigit && g.isDigit && h.isDigit && i.isDigit then
          if wordEdgeAfter i rest then some 11 else none
        else none
      | _ => none

/-- Matcher for the credit-card pattern `/\b\d{16}\b/g`: exactly sixteen
digits delimited by word boundaries. -/
def ccMatcher : Matcher :=
  fun prev s =>
    if prevIsWord prev then none
    else
      let ds := s.takeWhile Char.isDigit
      if ds.length == 16 then
        if wordEdgeAfter (s.getD 15 ' ') (s.drop 16) then some 16 else none
      else none

/-- The `SENSITIVE_PATTERNS` array of `errorLogger.ts`, in source order. -/
def SENSITIVE_PATTERNS : List Matcher :=
  [keyValMatcher "token" true,
   keyValMatcher "password" true,
   compoundMatcher "api" "key" true,
   keyValMatcher "secret" true,
   keyValMatcher "authorization" false,
   bearerMatcher,
   compoundMatcher "access" "token" false,
   compoundMatcher "refresh" "token" false,
   compoundMatcher "client" "secret" false,
   emailMatcher,
   ssnMatcher,
   ccMatcher]

/-- The fixed redaction marker. -/
def REDACTED : String := "[REDACTED]"

/-- One pass of JavaScript `String.replace` with a global regex and the fixed
replacement string: matches are located left to right on the input
(non-overlapping; scanning resumes after each match), and each is replaced by
the marker.  `fuel` is an upper bound on the remaining input length, making
the recursion structural; `prev` is the character preceding the current
position, for `\b`. -/
def scanReplace (m : Matcher) : Nat → Option Char → List Char → List Char
  | 0, _, s => s
  | _ + 1, _, [] => []
  | fuel + 1, prev, c :: cs =>
    match m prev (c :: cs) with
    | some (len + 1) =>
      REDACTED.data ++ scanReplace m fuel (some ((c :: cs).getD len ' ')) (cs.drop len)
    | _ => c :: scanReplace m fuel (some c) cs

/-- `redacted.replace(pattern, '[REDACTED]')` for one pattern. -/
def replacePattern (m : Matcher) (s : List Char) : List Char :=
  scanReplace m s.length none s

/-- The `SENSITIVE_PATTERNS.forEach` loop of `redactSensitiveData` applied to
a string's characters: each pattern replaces over the previous result. -/
def redactChars (s : List Char) : List Char :=
  SENSITIVE_PATTERNS.foldl (fun acc m => replacePattern m acc) s

/-- `redactSensitiveData` on a string value. -/
def redactString (s : String) : String :=
  ⟨redactChars s.data⟩

/-- `key.toLowerCase().replace(/[-_\s]/g, '')` of `isSensitiveKey`. -/
def normalizeKey (key : String) : List Char :=
  (key.data.map Char.toLower).filter (fun c => !(c == '-' || c == '_' || isWSChar c))

/-- The `sensitiveKeys` list of `isSensitiveKey`, in source order. -/
def sensitiveKeys : List String :=
  ["token", "password", "secret", "apikey", "api_key", "authorization", "auth",
   "accesstoken", "access_token", "refreshtoken", "refresh_token",
   "clientsecret", "client_secret", "ssn", "creditcard", "credit_card",
   "cvv", "pin"]

/-- `isSensitiveKey(key)`: some entry of `sensitiveKeys` occurs inside the
lower-cased, separator-stripped key. -/
def isSensitiveKey (key : String) : Bool :=
  sensitiveKeys.any (fun sk => containsRunB (normalizeKey key) sk.data)

mutual

/-- `redactSensitiveData`: strings run through the value patterns, arrays
recurse element-wise, objects redact whole values under sensitive key names
and recurse otherwise, all other values pass through. -/
def redactVal : JSVal → JSVal
  | .str s => .str (redactString s)
  | .arr l => .arr (redactArr l)
  | .obj l => .obj (redactObj l)
  | .null => .null
  | .bool b => .bool b
  | .num n => .num n
  | .err e => .err e

/-- `redactSensitiveData` over the elements of an array value. -/
def redactArr : List JSVal → List JSVal
  | [] => []
  | v :: vs => redactVal v :: redactArr vs

/-- The `for (const key in data)` loop of `redactSensitiveData` over the own
properties of an object value. -/
def redactObj : List (String × JSVal) → List (String × JSVal)
  | [] => []
  | (k, v) :: rest =>
    (k, if isSensitiveKey k then .str "[REDACTED]" else redactVal v) :: redactObj rest

end

/-- The error categories of `errorLogger.ts`. -/
inductive ErrorCategory where
  | network
  | authentication
  | validation
  | widget
  | storage
  | unknown
deriving DecidableEq

/-- JavaScript truthiness of a value, for the `context?.widgetId` test. -/
def jsTruthy : JSVal → Bool
  | .null => false
  | .bool b => b
  | .num n => n != 0
  | .str s => s != ""
  | .err _ => true
  | .arr _ => true
  | .obj _ => true

/-- `message.includes(sub)` on already-lower-cased text. -/
def inclB (s sub : String) : Bool :=
  containsRunB s.data sub.data

/-- Truthiness of `context?.widgetId`. -/
def ctxWidgetId (ctx : List (String × JSVal)) : Bool :=
  match ctx.find? (fun p => p.1 == "widgetId") with
  | some p => jsTruthy p.2
  | none => false

/-- `categorizeError`: keyword heuristics over the lower-cased message, then
the `widgetId` presence test, then `unknown`. -/
def categorizeError (error : JSError) (ctx : List (String × JSVal)) : ErrorCategory :=
  let message := error.message.toLower
  if inclB message "network" || inclB message "fetch" || inclB message "timeout" then
    .network
  else if inclB message "auth" || inclB message "token" || inclB message "unauthorized" then
    .authentication
  else if inclB message "validation" || inclB message "invalid" || inclB message "required" then
    .validation
  else if inclB message "storage" || inclB message "quota" || inclB message "localstorage" then
    .storage
  else if ctxWidgetId ctx then
    .widget
  else
    .unknown

/-- The retained `ErrorLogEntry` of `errorLogger.ts`. -/
structure ErrorLogEntry where
  category : ErrorCategory
  message : String
  timestamp : Nat
  context : List (String × JSVal)
  stackTrace : Option String

/-- The entry built by `logError` after destructuring `error` and `errorInfo`
out of the caller's context: category from the error (or `unknown` without
one), message and stack trace run through `redactSensitiveData`, the clean
context redacted key-wise. -/
def mkLogEntry (now : Nat) (message : String) (error : Option JSError)
    (cleanContext : List (String × JSVal)) : ErrorLogEntry :=
  { category := match error with
      | some e => categorizeError e cleanContext
      | none => .unknown
    message := redactString message
    timestamp := now
    context := redactObj cleanContext
    stackTrace := match error with
      | some e => e.stack.map redactString
      | none => none }

/-- The ring-buffer capacity `MAX_ERROR_HISTORY`. -/
def MAX_ERROR_HISTORY : Nat := 50

/-- `storeErrorInMemory`: push, then shift once the capacity is exceeded. -/
def storeErrorInMemory (entry : ErrorLogEntry) (buf : List ErrorLogEntry) :
    List ErrorLogEntry :=
  let buf' := buf ++ [entry]
  if MAX_ERROR_HISTORY < buf'.length then buf'.drop 1 else buf'

/-- `logError(message, context)` of `errorLogger.ts`, taken after the
destructuring `const { error, errorInfo, ...cleanContext } = context`:
builds the redacted entry and retains it in the bounded in-memory buffer
(`errorInfo` feeds only the development console mirror, which holds no
state). -/
def logError (now : Nat) (message : String) (error : Option JSError)
    (_errorInfo : Option String) (cleanContext : List (String × JSVal))
    (buf : List ErrorLogEntry) : List ErrorLogEntry :=
  storeErrorInMemory (mkLogEntry now message error cleanContext) buf

/-- The per-boundary state of `WidgetErrorBoundary`. -/
structure WidgetErrorBoundaryState where
  hasError : Bool
  error : Option JSError
  errorInfo : Option String

/-- The constructor's initial state. -/
def initialBoundaryState : WidgetErrorBoundaryState :=
  ⟨false, none, none⟩

/-- `static getDerivedStateFromError(error)` merged into the state. -/
def getDerivedStateFromError (e : JSError) (s : WidgetErrorBoundaryState) :
    WidgetErrorBoundaryState :=
  { s with hasError := true, error := some e }

/-- `componentDidCatch(error, errorInfo)`: one `logError` call tagged with
the widget's identifier and title, then `setState({ errorInfo })`. -/
def componentDidCatch (now : Nat) (widgetId widgetTitle : String) (e : JSError)
    (info : String) (s : WidgetErrorBoundaryState) (buf : List ErrorLogEntry) :
    WidgetErrorBoundaryState × List ErrorLogEntry :=
  ({ s with errorInfo := some info },
   logError now "Widget Error" (some e) (some info)
     [("widgetId", .str widgetId), ("widgetTitle", .str widgetTitle)] buf)

/-- `handleRetry`: reset to the initial state (the externally supplied
`onRetry` callback is then invoked; it owns no boundary state). -/
def handleRetry (_ : WidgetErrorBoundaryState) : WidgetErrorBoundaryState :=
  ⟨false, none, none⟩

/-- What a boundary renders: either the fallback view with the caught
error's message, or its children. -/
inductive RenderOutput where
  | fallback (errorMessage : String) (widgetTitle : String)
  | children
deriving DecidableEq

/-- `render()`: the fallback (with `error?.message || 'An unexpected error
occurred'`, where an empty message is falsy) while failed, the children
otherwise. -/
def renderBoundary (widgetTitle : String) (s : WidgetErrorBoundaryState) :
    RenderOutput :=
  if s.hasError then
    .fallback
      (match s.error with
       | some e => if e.message = "" then "An unexpected error occurred" else e.message
       | none => "An unexpected error occurred")
      widgetTitle
  else
    .children

/-- A child throwing during render: React runs `getDerivedStateFromError`
then `componentDidCatch` on the boundary owning that child. -/
def childThrows (now : Nat) (widgetId widgetTitle : String) (e : JSError)
    (info : String) (s : WidgetErrorBoundaryState) (buf : List ErrorLogEntry) :
    WidgetErrorBoundaryState × List ErrorLogEntry :=
  componentDidCatch now widgetId widgetTitle e info (getDerivedStateFromError e s) buf

/-- Two independent boundary instances with a failure thrown in the first
one's subtree: only the first instance's transition functions run — they read
and write nothing but that instance's own state (plus the shared log
buffer). -/
def failInFirst (now : Nat) (id1 title1 : String) (e : JSError) (info : String)
    (b1 b2 : WidgetErrorBoundaryState) (buf : List ErrorLogEntry) :
    (WidgetErrorBoundaryState × WidgetErrorBoundaryState) × List ErrorLogEntry :=
  (((childThrows now id1 title1 e info b1 buf).1, b2),
   (childThrows now id1 title1 e info b1 buf).2)

/-- C7 (Boundary isolation): a failure in the first boundary's subtree
transitions only that boundary to the failed state (with the caught error);
the second boundary's state and rendered output are unchanged — no boundary
transition reads or writes another boundary's state. -/
theorem C7_boundary_isolation (now : Nat) (id1 title1 title2 : String)
    (e : JSError) (info : String) (b1 b2 : WidgetErrorBoundaryState)
    (buf : List ErrorLogEntry) :
    (failInFirst now id1 title1 e info b1 b2 buf).1.2 = b2 ∧
    renderBoundary title2 (failInFirst now id1 title1 e info b1 b2 buf).1.2 =
      renderBoundary title2 b2 ∧
    (failInFirst now id1 title1 e info b1 b2 buf).1.1.hasError = true ∧
    (failInFirst now id1 title1 e info b1 b2 buf).1.1.error = some e :=
  ⟨rfl, rfl, rfl, rfl⟩

lemma scanReplace_zero (m : Matcher) (prev : Option Char) (s : List Char) :
    scanReplace m 0 prev s = s := rfl

lemma scanReplace_nil (m : Matcher) (fuel : Nat) (prev : Option Char) :
    scanReplace m (fuel + 1) prev [] = [] := rfl

lemma scanReplace_keep (m : Matcher) (fuel : Nat) (prev : Option Char)
    (c : Char) (cs : List Char) (h : m prev (c :: cs) = none) :
    scanReplace m (fuel + 1) prev (c :: cs) = c :: scanReplace m fuel (some c) cs := by
  rw [scanReplace.eq_def]
  dsimp only
  rw [h]

lemma scanReplace_keep0 (m : Matcher) (fuel : Nat) (prev : Option Char)
    (c : Char) (cs : List Char) (h : m prev (c :: cs) = some 0) :
    scanReplace m (fuel + 1) prev (c :: cs) = c :: scanReplace m fuel (some c) cs := by
  rw [scanReplace.eq_def]
  dsimp only
  rw [h]

lemma scanReplace_rep (m : Matcher) (fuel : Nat) (prev : Option Char)
    (c : Char) (cs : List Char) (len : Nat) (h : m prev (c :: cs) = some (len + 1)) :
    scanReplace m (fuel + 1) prev (c :: cs) =
      REDACTED.data ++ scanReplace m fuel (some ((c :: cs).getD len ' ')) (cs.drop len) := by
  rw [scanReplace.eq_def]
  dsimp only
  rw [h]

lemma startsWith_append_split {a b t : List Char} (h : StartsWith (a ++ b) t) :
    StartsWith a t ∨ ∃ t2, t = a ++ t2 ∧ StartsWith b t2 := by
  induction a generalizing t with
  | nil =>
    refine Or.inr ⟨t, rfl, ?_⟩
    simpa using h
  | cons x a' ih =>
    rcases h with ⟨q, hq⟩
    cases t with
    | nil => exact Or.inl ⟨x :: a', rfl⟩
    | cons c t' =>
      rw [List.cons_append] at hq
      injection hq with h1 h2
      rcases ih ⟨q, h2⟩ with h' | ⟨t2, ht2, h2'⟩
      · rcases h' with ⟨q', hq'⟩
        exact Or.inl ⟨q', by rw [h1, List.cons_append, hq']⟩
      · exact Or.inr ⟨t2, by rw [h1, List.cons_append, ht2], h2'⟩

lemma containsRun_of_cons {c : Char} {cs t : List Char} (h : ContainsRun cs t) :
    ContainsRun (c :: cs) t :=
  (containsRun_cons_iff c cs t).mpr (Or.inr h)

lemma containsRun_of_startsWith {s t : List Char} (h : StartsWith s t) :
    ContainsRun s t := by
  rcases h with ⟨q, hq⟩
  exact ⟨[], q, by simpa using hq⟩

lemma contains_append_split {a b t : List Char} (h : ContainsRun (a ++ b) t) :
    ContainsRun a t ∨ ContainsRun b t ∨
      ∃ t1 t2, t = t1 ++ t2 ∧ t1 ≠ [] ∧ t2 ≠ [] ∧ EndsWith a t1 ∧ StartsWith b t2 := by
  induction a generalizing t with
  | nil =>
    exact Or.inr (Or.inl (by simpa using h))
  | cons x a' ih =>
    rw [List.cons_append] at h
    rcases (containsRun_cons_iff x (a' ++ b) t).mp h with hpre | hrest
    · cases t with
      | nil => exact Or.inl ⟨[], x :: a', rfl⟩
      | cons c t' =>
        rcases hpre with ⟨q, hq⟩
        injection hq with h1 h2
        rcases startsWith_append_split ⟨q, h2⟩ with h' | ⟨t2, ht2, h2'⟩
        · rcases h' with ⟨q', hq'⟩
          exact Or.inl ⟨[], q', by rw [h1, hq']; simp⟩
        · cases t2 with
          | nil =>
            refine Or.inl ⟨[], [], ?_⟩
            rw [h1, ht2]
            simp
          | cons y t2' =>
            refine Or.inr (Or.inr ⟨x :: a', y :: t2', ?_, by simp, by simp, ⟨[], rfl⟩, h2'⟩)
            rw [h1, ht2, List.cons_append]
    · rcases ih hrest with h' | h' | ⟨t1, t2, heq, h1ne, h2ne, ⟨p, hp⟩, hsb⟩
      · exact Or.inl (containsRun_of_cons h')
      · exact Or.inr (Or.inl h')
      · exact Or.inr (Or.inr ⟨t1, t2, heq, h1ne, h2ne, ⟨x :: p, by rw [hp, List.cons_append]⟩, hsb⟩)

lemma containsRun_drop {cs t : List Char} (len : Nat) (h : ContainsRun (cs.drop len) t) :
    ContainsRun cs t := by
  rcases h with ⟨p, q, hpq⟩
  refine ⟨cs.take len ++ p, q, ?_⟩
  conv_lhs => rw [← List.take_append_drop len cs]
  rw [hpq]
  simp [List.append_assoc]

lemma mem_of_getLast?_eq {l : List Char} {x : Char} (h : l.getLast? = some x) :
    x ∈ l := by
  rcases List.mem_getLast?_eq_getLast (show x ∈ l.getLast? by simp [Option.mem_def, h]) with
    ⟨hne, hx⟩
  rw [hx]
  exact List.getLast_mem hne

lemma endsWith_marker_mem {t1 : List Char} (hne : t1 ≠ [])
    (h : EndsWith REDACTED.data t1) : ']' ∈ t1 := by
  rcases h with ⟨p, hp⟩
  have hlast : REDACTED.data.getLast? = some ']' := rfl
  rw [hp, List.getLast?_append_of_ne_nil p hne] at hlast
  exact mem_of_getLast?_eq hlast

lemma containsRun_marker_mem {t : List Char} (h : ContainsRun REDACTED.data t) :
    ∀ c ∈ t, c ∈ REDACTED.data := by
  rcases h with ⟨p, q, hpq⟩
  intro c hc
  rw [hpq]
  simp [hc]

lemma scan_startsWith_transfer (m : Matcher) :
    ∀ fuel (prev : Option Char) (s u : List Char), s.length ≤ fuel → '[' ∉ u →
      StartsWith (scanReplace m fuel prev s) u → StartsWith s u := by
  intro fuel
  induction fuel with
  | zero =>
    intro prev s u _ _ h
    rwa [scanReplace_zero] at h
  | succ fuel ih =>
    intro prev s u hlen hopen h
    cases s with
    | nil =>
      rwa [scanReplace_nil] at h
    | cons c cs =>
      have hlen' : cs.length ≤ fuel := by simpa using hlen
      cases hm : m prev (c :: cs) with
      | none =>
        rw [scanReplace_keep m fuel prev c cs hm] at h
        cases u with
        | nil => exact ⟨c :: cs, rfl⟩
        | cons d u' =>
          rcases h with ⟨q, hq⟩
          rw [List.cons_append] at hq
          injection hq with h1 h2
          have h' := ih (some c) cs u' hlen' (fun hx => hopen (by simp [hx])) ⟨q, h2⟩
          rcases h' with ⟨q', hq'⟩
          exact ⟨q', by rw [h1, List.cons_append, hq']⟩
      | some n =>
        cases n with
        | zero =>
          rw [scanReplace_keep0 m fuel prev c cs hm] at h
          cases u with
          | nil => exact ⟨c :: cs, rfl⟩
          | cons d u' =>
            rcases h with ⟨q, hq⟩
            rw [List.cons_append] at hq
            injection hq with h1 h2
            have h' := ih (some c) cs u' hlen' (fun hx => hopen (by simp [hx])) ⟨q, h2⟩
            rcases h' with ⟨q', hq'⟩
            exact ⟨q', by rw [h1, List.cons_append, hq']⟩
        | succ len =>
          rw [scanReplace_rep m fuel prev c cs len hm] at h
          cases u with
          | nil => exact ⟨c :: cs, rfl⟩
          | cons d u' =>
            rcases h with ⟨q, hq⟩
            have hmk : REDACTED.data = '[' :: "REDACTED]".data := rfl
            rw [hmk, List.cons_append, List.cons_append] at hq
            injection hq with h1 _
            exact absurd (by simp [← h1] : '[' ∈ d :: u') hopen

lemma scan_no_target (m : Matcher) (t : List Char) (ht : t ≠ [])
    (hopen : '[' ∉ t) (hclose : ']' ∉ t)
    (hchar : ∃ c, c ∈ t ∧ c ∉ REDACTED.data)
    (hfire : ∀ prev s, StartsWith s t → ∃ l, m prev s = some (l + 1)) :
    ∀ fuel (prev : Option Char) (s : List Char), s.length ≤ fuel →
      ¬ ContainsRun (scanReplace m fuel prev s) t := by
  intro fuel
  induction fuel with
  | zero =>
    intro prev s hlen hc
    have hs : s = [] := List.eq_nil_of_length_eq_zero (Nat.le_zero.mp hlen)
    rw [scanReplace_zero, hs] at hc
    exact ht ((containsRun_nil_iff t).mp hc)
  | succ fuel ih =>
    intro prev s hlen hc
    cases s with
    | nil =>
      rw [scanReplace_nil] at hc
      exact ht ((containsRun_nil_iff t).mp hc)
    | cons c cs =>
      have hlen' : cs.length ≤ fuel := by simpa using hlen
      cases hm : m prev (c :: cs) with
      | none =>
        rw [scanReplace_keep m fuel prev c cs hm] at hc
        rcases (containsRun_cons_iff _ _ _).mp hc with hpre | hrest
        · cases t with
          | nil => exact ht rfl
          | cons d t' =>
            rcases hpre with ⟨q, hq⟩
            rw [List.cons_append] at hq
            injection hq with h1 h2
            have htr := scan_startsWith_transfer m fuel (some c) cs t' hlen'
              (fun hx => hopen (by simp [hx])) ⟨q, h2⟩
            rcases htr with ⟨q2, hq2⟩
            rcases hfire prev (c :: cs) ⟨q2, by rw [h1, List.cons_append, hq2]⟩ with ⟨l, hml⟩
            rw [hm] at hml
            cases hml
        · exact ih (some c) cs hlen' hrest
      | some n =>
        cases n with
        | zero =>
          rw [scanReplace_keep0 m fuel prev c cs hm] at hc
          rcases (containsRun_cons_iff _ _ _).mp hc with hpre | hrest
          · cases t with
            | nil => exact ht rfl
            | cons d t' =>
              rcases hpre with ⟨q, hq⟩
              rw [List.cons_append] at hq
              injection hq with h1 h2
              have htr := scan_startsWith_transfer m fuel (some c) cs t' hlen'
                (fun hx => hopen (by simp [hx])) ⟨q, h2⟩
              rcases htr with ⟨q2, hq2⟩
              rcases hfire prev (c :: cs) ⟨q2, by rw [h1, List.cons_append, hq2]⟩ with ⟨l, hml⟩
              rw [hm] at hml
              cases hml
          · exact ih (some c) cs hlen' hrest
        | succ len =>
          rw [scanReplace_rep m fuel prev c cs len hm] at hc
          rcases contains_append_split hc with hmk | hout | ⟨t1, t2, heq, h1ne, h2ne, hsa, hsb⟩
          · rcases hchar with ⟨ch, hmem, hnotin⟩
            exact hnotin (containsRun_marker_mem hmk ch hmem)
          · refine ih (some ((c :: cs).getD len ' ')) (cs.drop len) ?_ hout
            rw [List.length_drop]
            omega
          · have hcl : ']' ∈ t1 := endsWith_marker_mem h1ne hsa
            exact hclose (by rw [heq]; simp [hcl])

lemma scan_preserves_no_target (m : Matcher) (t : List Char) (ht : t ≠ [])
    (hopen : '[' ∉ t) (hclose : ']' ∉ t)
    (hchar : ∃ c, c ∈ t ∧ c ∉ REDACTED.data) :
    ∀ fuel (prev : Option Char) (s : List Char), s.length ≤ fuel →
      ¬ ContainsRun s t → ¬ ContainsRun (scanReplace m fuel prev s) t := by
  intro fuel
  induction fuel with
  | zero =>
    intro prev s _ hno hc
    rw [scanReplace_zero] at hc
    exact hno hc
  | succ fuel ih =>
    intro prev s hlen hno hc
    cases s with
    | nil =>
      rw [scanReplace_nil] at hc
      exact ht ((containsRun_nil_iff t).mp hc)
    | cons c cs =>
      have hlen' : cs.length ≤ fuel := by simpa using hlen
      cases hm : m prev (c :: cs) with
      | none =>
        rw [scanReplace_keep m fuel prev c cs hm] at hc
        rcases (containsRun_cons_iff _ _ _).mp hc with hpre | hrest
        · cases t with
          | nil => exact ht rfl
          | cons d t' =>
            rcases hpre with ⟨q, hq⟩
            rw [List.cons_append] at hq
            injection hq with h1 h2
            have htr := scan_startsWith_transfer m fuel (some c) cs t' hlen'
              (fun hx => hopen (by simp [hx])) ⟨q, h2⟩
            rcases htr with ⟨q2, hq2⟩
            exact hno (containsRun_of_startsWith ⟨q2, by rw [h1, List.cons_append, hq2]⟩)
        · exact ih (some c) cs hlen' (fun h => hno (containsRun_of_cons h)) hrest
      | some n =>
        cases n with
        | zero =>
          rw [scanReplace_keep0 m fuel prev c cs hm] at hc
          rcases (containsRun_cons_iff _ _ _).mp hc with hpre | hrest
          · cases t with
            | nil => exact ht rfl
            | cons d t' =>
              rcases hpre with ⟨q, hq⟩
              rw [List.cons_append] at hq
              injection hq with h1 h2
              have htr := scan_startsWith_transfer m fuel (some c) cs t' hlen'
                (fun hx => hopen (by simp [hx])) ⟨q, h2⟩
              rcases htr with ⟨q2, hq2⟩
              exact hno (containsRun_of_startsWith ⟨q2, by rw [h1, List.cons_append, hq2]⟩)
          · exact ih (some c) cs hlen' (fun h => hno (containsRun_of_cons h)) hrest
        | succ len =>
          rw [scanReplace_rep m fuel prev c cs len hm] at hc
          rcases contains_append_split hc with hmk | hout | ⟨t1, t2, heq, h1ne, h2ne, hsa, hsb⟩
          · rcases hchar with ⟨ch, hmem, hnotin⟩
            exact hnotin (containsRun_marker_mem hmk ch hmem)
          · refine ih (some ((c :: cs).getD len ' ')) (cs.drop len) ?_
              (fun h => hno (containsRun_of_cons (containsRun_drop len h))) hout
            rw [List.length_drop]
            omega
          · have hcl : ']' ∈ t1 := endsWith_marker_mem h1ne hsa
            exact hclose (by rw [heq]; simp [hcl])

/-- Well-formedness of a bearer token's characters: nonempty and its first
character is matchable by `[^\s&]` (neither whitespace nor `&`). -/
def tokHeadOK : List Char → Bool
  | [] => false
  | c :: _ => !(isWSChar c) && c != '&'

lemma bearerMatcher_fires (tok : List Char) (htok : tokHeadOK tok = true) :
    ∀ (prev : Option Char) (s : List Char),
      StartsWith s ("Bearer ".data ++ tok) →
      ∃ l, bearerMatcher prev s = some (l + 1) := by
  intro prev s hs
  cases tok with
  | nil => simp [tokHeadOK] at htok
  | cons c0 tok' =>
    simp only [tokHeadOK, Bool.and_eq_true, Bool.not_eq_true', bne_iff_ne, ne_eq] at htok
    obtain ⟨q, rfl⟩ := hs
    have hval : isValChar c0 = true := by
      simp [isValChar, htok.1, htok.2]
    have hstep : "Bearer ".data ++ (c0 :: tok') ++ q =
        'B' :: 'e' :: 'a' :: 'r' :: 'e' :: 'r' :: ' ' :: c0 :: (tok' ++ q) := by
      simp
    rw [hstep]
    have e1 : pLitCI "bearer".data
        (0, 'B' :: 'e' :: 'a' :: 'r' :: 'e' :: 'r' :: ' ' :: c0 :: (tok' ++ q)) =
        some (6, ' ' :: c0 :: (tok' ++ q)) := rfl
    have hsp : isWSChar ' ' = true := rfl
    have e2 : pPlus isWSChar (6, ' ' :: c0 :: (tok' ++ q)) =
        some (7, c0 :: (tok' ++ q)) := by
      simp [pPlus, List.takeWhile_cons, hsp, htok.1]
    have e3 : pPlus isValChar (7, c0 :: (tok' ++ q)) =
        some (7 + ((List.takeWhile isValChar (tok' ++ q)).length + 1),
          (tok' ++ q).drop (List.takeWhile isValChar (tok' ++ q)).length) := by
      simp [pPlus, List.takeWhile_cons, hval]
    refine ⟨6 + ((List.takeWhile isValChar (tok' ++ q)).length + 1), ?_⟩
    simp only [bearerMatcher, e1, e2, e3, bind, Option.bind, Option.pure_def]
    exact congrArg some (by omega)

lemma redact_no_bearer (tok : List Char) (hhead : tokHeadOK tok = true)
    (hopen : '[' ∉ tok) (hclose : ']' ∉ tok) :
    ∀ s : List Char, ¬ ContainsRun (redactChars s) ("Bearer ".data ++ tok) := by
  intro s
  have ht : "Bearer ".data ++ tok ≠ [] := by simp
  have hopen' : '[' ∉ "Bearer ".data ++ tok := by
    intro h
    rcases List.mem_append.mp h with h | h
    · exact absurd h (by decide)
    · exact hopen h
  have hclose' : ']' ∉ "Bearer ".data ++ tok := by
    intro h
    rcases List.mem_append.mp h with h | h
    · exact absurd h (by decide)
    · exact hclose h
  have hchar : ∃ c, c ∈ "Bearer ".data ++ tok ∧ c ∉ REDACTED.data :=
    ⟨'B', List.mem_append.mpr (Or.inl (by decide)), by decide⟩
  have hfire := bearerMatcher_fires tok hhead
  simp only [redactChars, SENSITIVE_PATTERNS, List.foldl_cons, List.foldl_nil, replacePattern]
  refine scan_preserves_no_target ccMatcher _ ht hopen' hclose' hchar _ none _ le_rfl ?_
  refine scan_preserves_no_target ssnMatcher _ ht hopen' hclose' hchar _ none _ le_rfl ?_
  refine scan_preserves_no_target emailMatcher _ ht hopen' hclose' hchar _ none _ le_rfl ?_
  refine scan_preserves_no_target (compoundMatcher "client" "secret" false) _ ht hopen'
    hclose' hchar _ none _ le_rfl ?_
  refine scan_preserves_no_target (compoundMatcher "refresh" "token" false) _ ht hopen'
    hclose' hchar _ none _ le_rfl ?_
  refine scan_preserves_no_target (compoundMatcher "access" "token" false) _ ht hopen'
    hclose' hchar _ none _ le_rfl ?_
  exact scan_no_target bearerMatcher _ ht hopen' hclose' hchar hfire _ none _ le_rfl

/-- The sensitive-key patterns the claim enumerates (token, password, secret,
api key, authorization, credit card, ssn, pin), in the same normalized form
`isSensitiveKey` compares against. -/
def claimSensitiveWords : List String :=
  ["token", "password", "secret", "apikey", "authorization", "creditcard",
   "ssn", "pin"]

/-- A key name matching one of the claim's sensitive-key patterns
(case/separator-insensitively). -/
def claimSensitiveKey (key : String) : Bool :=
  claimSensitiveWords.any (fun sk => containsRunB (normalizeKey key) sk.data)

lemma isSensitiveKey_of_claim {k : String} (h : claimSensitiveKey k = true) :
    isSensitiveKey k = true := by
  rcases List.any_eq_true.mp h with ⟨w, hw, hcont⟩
  exact List.any_eq_true.mpr
    ⟨w, (by decide : ∀ x ∈ claimSensitiveWords, x ∈ sensitiveKeys) w hw, hcont⟩

lemma redactObj_sensitive_entry :
    ∀ (l : List (String × JSVal)) (i : Nat) (k : String) (v : JSVal),
      l[i]? = some (k, v) → isSensitiveKey k = true →
      (redactObj l)[i]? = some (k, JSVal.str "[REDACTED]") := by
  intro l
  induction l with
  | nil =>
    intro i k v h _
    simp at h
  | cons p rest ih =>
    intro i k v h hk
    cases i with
    | zero =>
      simp only [List.getElem?_cons_zero, Option.some_inj] at h
      subst h
      simp [redactObj, hk]
    | succ i =>
      simp only [List.getElem?_cons_succ] at h
      cases p with
      | mk pk pv =>
        simpa [redactObj] using ih i k v h hk

lemma self_mem_storeErrorInMemory (e : ErrorLogEntry) (buf : List ErrorLogEntry) :
    e ∈ storeErrorInMemory e buf := by
  simp only [storeErrorInMemory]
  split
  next hcond =>
    cases buf with
    | nil => simp [MAX_ERROR_HISTORY] at hcond
    | cons b bs => simp
  next => simp

/-- C8 (Redaction): in the entry retained by `logError`, (i) every
context-map entry whose key matches a sensitive-key pattern of the claim's
list has its value wholly replaced by the fixed `[REDACTED]` marker; and
(ii) the free-text message is run through the sensitive-value patterns, so
for every well-formed bearer token (nonempty, starting with a `[^\s&]`
character and containing no square bracket) the bearer substring
`Bearer <tok>` never appears verbatim in the retained message. -/
theorem C8_redaction (now : Nat) (msg : String) (error : Option JSError)
    (info : Option String) (ctx : List (String × JSVal)) (buf : List ErrorLogEntry) :
    (mkLogEntry now msg error ctx ∈ logError now msg error info ctx buf) ∧
    (mkLogEntry now msg error ctx).context = redactObj ctx ∧
    (∀ (i : Nat) (k : String) (v : JSVal),
      ctx[i]? = some (k, v) → claimSensitiveKey k = true →
      (redactObj ctx)[i]? = some (k, JSVal.str "[REDACTED]")) ∧
    (mkLogEntry now msg error ctx).message = redactString msg ∧
    (∀ tok : String, tokHeadOK tok.data = true → '[' ∉ tok.data → ']' ∉ tok.data →
      ¬ ContainsRun (mkLogEntry now msg error ctx).message.data
        ("Bearer ".data ++ tok.data)) := by
  refine ⟨self_mem_storeErrorInMemory _ buf, rfl, ?_, rfl, ?_⟩
  · intro i k v h hk
    exact redactObj_sensitive_entry ctx i k v h (isSensitiveKey_of_claim hk)
  · intro tok hhead hopen hclose
    have hmsg : (mkLogEntry now msg error ctx).message.data = redactChars msg.data := by
      rw [show (mkLogEntry now msg error ctx).message = redactString msg from rfl,
        redactString]
    rw [hmsg]
    exact redact_no_bearer tok.data hhead hopen hclose msg.data

theorem C8_redaction_witness :
    (redactObj [("password", JSVal.str "hunter2")])[0]? =
      some ("password", JSVal.str "[REDACTED]") ∧
    ¬ ContainsRun (mkLogEntry 0 "call Bearer abc9 done" none
        [("password", JSVal.str "hunter2")]).message.data
      ("Bearer ".data ++ "abc9".data) := by
  have h := C8_redaction 0 "call Bearer abc9 done" none none
    [("password", JSVal.str "hunter2")] []
  exact ⟨h.2.2.1 0 "password" (JSVal.str "hunter2") rfl (by decide),
         h.2.2.2.2 "abc9" (by decide) (by decide) (by decide)⟩
